import Mathlib

/-!
Shallow embedding of `WorkflowParser.ts` from the Cerber CI core package
(`src/node_modules/@cerber-ci/core/src/ast/WorkflowParser.ts`).

The external YAML decoder (`js-yaml`'s `load`) is out of scope: the
embedding starts from the already decoded generic value.  JavaScript
runtime semantics that the source relies on are modelled explicitly:

* a decoded value is one of `undefined`, `null`, boolean, number, string,
  array, object (`Value` below);
* JavaScript truthiness (`!x`): `undefined`, `null`, `false`, `0` and `""`
  are falsy, every array and object is truthy;
* `typeof x === 'object'` holds for arrays, objects and `null`;
* reading a property of `null`/`undefined` throws a `TypeError`, while a
  property read on any other non-object value yields `undefined`
  (modelled by `getField`, returning `Except`);
* `Object.keys`/`Object.entries` on an array yield the stringified
  indices; on `null` they throw.

Throwing JavaScript code is modelled in the `Except JsErr` monad; the
`try`/`catch` of `WorkflowParser.parse` becomes the `match` in `parse`.
-/

/-- A decoded JavaScript value as produced by the external YAML decoder. -/
inductive Value where
  | vundefined : Value
  | vnull : Value
  | vbool : Bool → Value
  | vnum : Int → Value
  | vstr : String → Value
  | varr : List Value → Value
  | vmap : List (String × Value) → Value
deriving Repr

/-- JavaScript truthiness: `undefined`, `null`, `false`, `0` and the empty
string are falsy; arrays and objects are always truthy. -/
def truthy : Value → Bool
  | .vundefined => false
  | .vnull => false
  | .vbool b => b
  | .vnum n => n != 0
  | .vstr s => s != ""
  | .varr _ => true
  | .vmap _ => true

/-- `typeof v === 'object'` in JavaScript: objects, arrays and `null`. -/
def isObjType : Value → Bool
  | .vnull => true
  | .varr _ => true
  | .vmap _ => true
  | _ => false

/-- The message of a thrown JavaScript error (`error.message`). -/
abbrev JsErr := String

/-- First entry of an association list with the given key.  The decoder
produces objects with distinct keys, so first match equals last match on
decoder output. -/
def findEntry (es : List (String × Value)) (k : String) : Option Value :=
  match es with
  | [] => none
  | (k₂, v) :: rest => if k₂ == k then some v else findEntry rest k

/-- JavaScript property read `v[k]`: throws a `TypeError` on `null` and
`undefined`; yields the entry (or `undefined`) on an object; yields
`undefined` on arrays and primitives (the source never reads numeric
indices through this). -/
def getField (v : Value) (k : String) : Except JsErr Value :=
  match v with
  | .vnull => .error ("Cannot read properties of null (reading '" ++ k ++ "')")
  | .vundefined => .error ("Cannot read properties of undefined (reading '" ++ k ++ "')")
  | .vmap es => .ok ((findEntry es k).getD .vundefined)
  | _ => .ok .vundefined

/-- Total property read used by the specification-level diagnostic
definitions: like `getField` but yielding `undefined` instead of throwing. -/
def getPropD (v : Value) (k : String) : Value :=
  match v with
  | .vmap es => (findEntry es k).getD .vundefined
  | _ => .vundefined

/-- `Object.entries(v)` for a truthy `typeof 'object'` value: an object
gives its entries, an array its elements keyed by stringified index. -/
def entriesOf : Value → List (String × Value)
  | .vmap es => es
  | .varr xs => xs.enum.map (fun p => (toString p.1, p.2))
  | _ => []

/-- `Array.isArray(x) ? x : [x]` — the filter/`needs` list coercion. -/
def coerceToList (v : Value) : List Value :=
  match v with
  | .varr xs => xs
  | _ => [v]

/-- Diagnostic severity (`ParseError.severity` in the source). -/
inductive Severity where
  | error : Severity
  | warning : Severity
deriving Repr, DecidableEq, BEq

/-- A diagnostic (`ParseError` in the source; the source never populates
the optional location on diagnostics). -/
structure ParseError where
  message : String
  severity : Severity
deriving Repr, DecidableEq

/-- `SourceLocation` of the source. -/
structure SourceLocation where
  line : Nat
  column : Nat
  file : Option String := none
deriving Repr, DecidableEq

/-- `TriggerAST`: events are the raw decoded values (the source copies a
raw array verbatim into `events`). -/
structure TriggerAST where
  type : String := "trigger"
  events : List Value
  branches : Option (List Value) := none
  tags : Option (List Value) := none
  paths : Option (List Value) := none
deriving Repr

/-- `StepAST`: every field is copied verbatim from the decoded step
configuration, `undefined` when absent.  `with` and `if` are reserved
words in Lean and appear as `withArgs` and `ifCond`. -/
structure StepAST where
  type : String := "step"
  id : Value := .vundefined
  name : Value := .vundefined
  uses : Value := .vundefined
  run : Value := .vundefined
  withArgs : Value := .vundefined
  env : Value := .vundefined
  ifCond : Value := .vundefined
  continueOnError : Value := .vundefined
deriving Repr

/-- The `strategy` block of `JobAST`. -/
structure StrategyAST where
  matrix : Value := .vundefined
  failFast : Value := .vundefined
  maxParallel : Value := .vundefined
deriving Repr

/-- `JobAST` (`if` appears as `ifCond`). -/
structure JobAST where
  type : String := "job"
  id : String
  name : Value := .vundefined
  runsOn : Value := .vundefined
  steps : List StepAST := []
  needs : Option (List Value) := none
  ifCond : Value := .vundefined
  strategy : Option StrategyAST := none
  env : Value := .vundefined
  permissions : Value := .vundefined
  timeout : Value := .vundefined
deriving Repr

/-- `WorkflowAST`: the jobs record is modelled as an association list in
insertion order (the source inserts into a fresh object in iteration
order of the decoded `jobs` mapping). -/
structure WorkflowAST where
  type : String := "workflow"
  name : Value := .vundefined
  onTrigger : TriggerAST
  jobs : List (String × JobAST)
  env : Value := .vundefined
  defaults : Value := .vundefined
  concurrency : Value := .vundefined
  location : SourceLocation
deriving Repr

/-- `ParseResult` of the source. -/
structure ParseResult where
  ast : Option WorkflowAST
  errors : List ParseError
deriving Repr

/-- Diagnostic message for a missing/falsy top-level `on` value. -/
def missingOnMsg : String := "Missing required field 'on' (trigger configuration)"

/-- Diagnostic message for a missing or non-object `jobs` value. -/
def invalidJobsMsg : String := "Missing or invalid 'jobs' field"

/-- Diagnostic message for a job without a truthy `runs-on`. -/
def jobRunsOnMsg (jobId : String) : String :=
  "Job '" ++ jobId ++ "': missing required field 'runs-on'"

/-- Diagnostic message for a truthy non-array `steps` value. -/
def jobStepsArrayMsg (jobId : String) : String :=
  "Job '" ++ jobId ++ "': 'steps' must be an array"

/-- Diagnostic message for a step with neither `uses` nor `run`. -/
def stepUsesRunMsg (jobId : String) (stepIndex : Nat) : String :=
  "Job '" ++ jobId ++ "', step " ++ toString stepIndex ++
    ": must have either 'uses' or 'run'"

/-- The loop of `parseTrigger` over `Object.keys(onConfig)`: extracts the
`branches`/`tags`/`paths` filters, each event whose configuration is a
truthy object overwriting whichever of the three fields it carries
truthily. -/
def extractFilters (onMap : List (String × Value)) :
    List String →
    Option (List Value) × Option (List Value) × Option (List Value) →
    Option (List Value) × Option (List Value) × Option (List Value)
  | [], acc => acc
  | ev :: rest, (branches, tags, paths) =>
      let eventConfig := (findEntry onMap ev).getD .vundefined
      if truthy eventConfig && isObjType eventConfig then
        let branches :=
          if truthy (getPropD eventConfig "branches") then
            some (coerceToList (getPropD eventConfig "branches"))
          else branches
        let tags :=
          if truthy (getPropD eventConfig "tags") then
            some (coerceToList (getPropD eventConfig "tags"))
          else tags
        let paths :=
          if truthy (getPropD eventConfig "paths") then
            some (coerceToList (getPropD eventConfig "paths"))
          else paths
        extractFilters onMap rest (branches, tags, paths)
      else
        extractFilters onMap rest (branches, tags, paths)

/-- `WorkflowParser.parseTrigger`.  A `null` value reaches the
`typeof onConfig === 'object'` branch (JavaScript: `typeof null` is
`'object'`) where `Object.keys(null)` throws a `TypeError`. -/
def parseTrigger (onConfig : Value) (errors : List ParseError) :
    Except JsErr (TriggerAST × List ParseError) :=
  match onConfig with
  | .vstr s => .ok ({ events := [.vstr s] }, errors)
  | .varr xs => .ok ({ events := xs }, errors)
  | .vnull => .error "Cannot convert undefined or null to object"
  | .vmap es =>
      let events := es.map (fun p => p.1)
      let (branches, tags, paths) := extractFilters es events (none, none, none)
      .ok ({ events := events.map Value.vstr, branches := branches,
             tags := tags, paths := paths }, errors)
  | _ => .ok ({ events := [] }, errors)

/-- `WorkflowParser.parseStep`. -/
def parseStep (stepConfig : Value) (jobId : String) (stepIndex : Nat)
    (errors : List ParseError) : Except JsErr (StepAST × List ParseError) := do
  let uses ← getField stepConfig "uses"
  let run ← getField stepConfig "run"
  let errors :=
    if !truthy uses && !truthy run then
      errors ++ [⟨stepUsesRunMsg jobId stepIndex, .error⟩]
    else errors
  let id ← getField stepConfig "id"
  let name ← getField stepConfig "name"
  let withV ← getField stepConfig "with"
  let env ← getField stepConfig "env"
  let ifV ← getField stepConfig "if"
  let coe ← getField stepConfig "continue-on-error"
  return ({ id := id, name := name, uses := uses, run := run,
            withArgs := withV, env := env, ifCond := ifV,
            continueOnError := coe }, errors)

/-- The `for` loop of `parseJob` over a `steps` array, with the running
zero-based index. -/
def parseSteps (stepList : List Value) (jobId : String) (stepIndex : Nat)
    (errors : List ParseError) :
    Except JsErr (List StepAST × List ParseError) :=
  match stepList with
  | [] => .ok ([], errors)
  | s :: rest => do
      let (step, errors) ← parseStep s jobId stepIndex errors
      let (steps, errors) ← parseSteps rest jobId (stepIndex + 1) errors
      return (step :: steps, errors)

/-- The straight-line tail of `WorkflowParser.parseJob` (from
`// Parse needs - ensure it's always an array` to the `return`): the
`needs` coercion, the `strategy` block and the verbatim field copies.
It never touches the diagnostic list. -/
def finishJob (jobId : String) (jobConfig : Value) (runsOn : Value)
    (steps : List StepAST) (errors : List ParseError) :
    Except JsErr (JobAST × List ParseError) := do
  let needsVal ← getField jobConfig "needs"
  let needs := if truthy needsVal then some (coerceToList needsVal) else none
  let strategyVal ← getField jobConfig "strategy"
  let strategy ←
    if truthy strategyVal then do
      let m ← getField strategyVal "matrix"
      let ff ← getField strategyVal "fail-fast"
      let mp ← getField strategyVal "max-parallel"
      pure (some ({ matrix := m, failFast := ff, maxParallel := mp } : StrategyAST))
    else pure none
  let name ← getField jobConfig "name"
  let ifV ← getField jobConfig "if"
  let env ← getField jobConfig "env"
  let perms ← getField jobConfig "permissions"
  let timeout ← getField jobConfig "timeout-minutes"
  return ({ id := jobId, name := name, runsOn := runsOn, steps := steps,
            needs := needs, ifCond := ifV, strategy := strategy, env := env,
            permissions := perms, timeout := timeout }, errors)

/-- `WorkflowParser.parseJob`: the `runs-on` check, the `steps`
validation and loop, then `finishJob` for the straight-line tail. -/
def parseJob (jobId : String) (jobConfig : Value) (errors : List ParseError) :
    Except JsErr (JobAST × List ParseError) := do
  let runsOn ← getField jobConfig "runs-on"
  let errors :=
    if !truthy runsOn then errors ++ [⟨jobRunsOnMsg jobId, .error⟩]
    else errors
  let stepsVal ← getField jobConfig "steps"
  let (steps, errors) ←
    match stepsVal with
    | .varr xs => parseSteps xs jobId 0 errors
    | v =>
        if truthy v then
          pure (([] : List StepAST), errors ++ [⟨jobStepsArrayMsg jobId, .error⟩])
        else
          pure ([], errors)
  finishJob jobId jobConfig runsOn steps errors

/-- The `for` loop of `buildWorkflowAST` over `Object.entries(raw.jobs)`. -/
def parseJobs (entries : List (String × Value)) (errors : List ParseError) :
    Except JsErr (List (String × JobAST) × List ParseError) :=
  match entries with
  | [] => .ok ([], errors)
  | (jobId, cfg) :: rest => do
      let (job, errors) ← parseJob jobId cfg errors
      let (jobs, errors) ← parseJobs rest errors
      return ((jobId, job) :: jobs, errors)

/-- `WorkflowParser.buildWorkflowAST`. -/
def buildWorkflowAST (raw : Value) (filePath : Option String)
    (errors : List ParseError) :
    Except JsErr (WorkflowAST × List ParseError) := do
  let onVal ← getField raw "on"
  let errors :=
    if !truthy onVal then errors ++ [⟨missingOnMsg, .error⟩]
    else errors
  let jobsVal ← getField raw "jobs"
  let errors :=
    if !truthy jobsVal || !isObjType jobsVal then
      errors ++ [⟨invalidJobsMsg, .error⟩]
    else errors
  let (trigger, errors) ← parseTrigger onVal errors
  let (jobs, errors) ←
    if truthy jobsVal && isObjType jobsVal then
      parseJobs (entriesOf jobsVal) errors
    else
      pure (([] : List (String × JobAST)), errors)
  let name ← getField raw "name"
  let env ← getField raw "env"
  let defaults ← getField raw "defaults"
  let concurrency ← getField raw "concurrency"
  return ({ name := name, onTrigger := trigger, jobs := jobs, env := env,
            defaults := defaults, concurrency := concurrency,
            location := { line := 1, column := 1, file := filePath } }, errors)

/-- `WorkflowParser.parse`, starting from the decoded value (the call to
the external decoder is outside the model).  The guard is the source's
`!rawYaml || typeof rawYaml !== 'object'`; the `match` is the source's
`try`/`catch`, whose handler produces a single diagnostic from the thrown
error's message and discards the diagnostics collected so far. -/
def parse (rawYaml : Value) (filePath : Option String) : ParseResult :=
  if !truthy rawYaml || !isObjType rawYaml then
    { ast := none, errors := [⟨"Invalid YAML: expected object", .error⟩] }
  else
    match buildWorkflowAST rawYaml filePath [] with
    | .ok (ast, errors) => { ast := some ast, errors := errors }
    | .error e =>
        { ast := none, errors := [⟨"YAML parse error: " ++ e, .error⟩] }

/-- Newline join of diagnostic messages (`.map(e => e.message).join('\n')`). -/
def joinMessages (es : List ParseError) : String :=
  String.intercalate "\n" (es.map (fun e => e.message))

/-- The result handling of the strict entry point `parseWorkflow`
(source lines after `parser.parse`): throwing becomes `Except.error`
carrying the thrown message. -/
def strictFromResult (result : ParseResult) : Except String WorkflowAST :=
  match result.ast with
  | none =>
      .error ("Failed to parse workflow:\n" ++ joinMessages result.errors)
  | some ast =>
      if result.errors.length > 0 then
        let criticalErrors := result.errors.filter (fun e => e.severity == .error)
        if criticalErrors.length > 0 then
          .error ("Workflow has critical errors:\n" ++ joinMessages criticalErrors)
        else .ok ast
      else .ok ast

/-- The strict convenience entry point `parseWorkflow`, on the decoded
value. -/
def parseWorkflow (rawYaml : Value) (filePath : Option String) :
    Except String WorkflowAST :=
  strictFromResult (parse rawYaml filePath)

/-! ## Specification-level diagnostic lists

The following definitions restate, directly from the spec's description
of the diagnostic order ("top-level `on` check, top-level `jobs` check,
then per-job checks in job order, each job's per-step checks in step
order"), which diagnostics a decoded document gives rise to and in which
order.  They are compared with the diagnostics the embedded builder
actually accumulates. -/

/-- Diagnostics of one step, per the spec: one error when neither `uses`
nor `run` is (truthily) present. -/
def specStepDiags (jobId : String) (stepIndex : Nat) (cfg : Value) :
    List ParseError :=
  if !truthy (getPropD cfg "uses") && !truthy (getPropD cfg "run") then
    [⟨stepUsesRunMsg jobId stepIndex, .error⟩]
  else []

/-- Diagnostics of a step list in index order, starting at `stepIndex`. -/
def specStepsDiags (jobId : String) : Nat → List Value → List ParseError
  | _, [] => []
  | i, s :: rest => specStepDiags jobId i s ++ specStepsDiags jobId (i + 1) rest

/-- Diagnostics of one job, per the spec: the `runs-on` check first, then
the step diagnostics (or the `steps must be an array` error). -/
def specJobDiags (jobId : String) (cfg : Value) : List ParseError :=
  (if !truthy (getPropD cfg "runs-on") then [⟨jobRunsOnMsg jobId, .error⟩]
   else []) ++
  (match getPropD cfg "steps" with
   | .varr xs => specStepsDiags jobId 0 xs
   | v => if truthy v then [⟨jobStepsArrayMsg jobId, .error⟩] else [])

/-- Diagnostics of the jobs, in the jobs mapping's iteration order. -/
def specJobsDiags : List (String × Value) → List ParseError
  | [] => []
  | (jobId, cfg) :: rest => specJobDiags jobId cfg ++ specJobsDiags rest

/-- All diagnostics of a decoded document, in the spec's order: top-level
`on` check, top-level `jobs` check, then the per-job diagnostics. -/
def specDiags (raw : Value) : List ParseError :=
  (if !truthy (getPropD raw "on") then [⟨missingOnMsg, .error⟩] else []) ++
  (if !truthy (getPropD raw "jobs") || !isObjType (getPropD raw "jobs") then
     [⟨invalidJobsMsg, .error⟩]
   else []) ++
  (if truthy (getPropD raw "jobs") && isObjType (getPropD raw "jobs") then
     specJobsDiags (entriesOf (getPropD raw "jobs"))
   else [])

/-- A throwaway workflow value used by closed witnesses. -/
def emptyWorkflow : WorkflowAST :=
  { onTrigger := { events := [] }, jobs := [],
    location := { line := 1, column := 1 } }

/-- A minimal valid document: a string trigger, one job with a string
runner and a list of steps each carrying a `run` command. -/
def minimalDoc (s jid r : String) (cs : List String) : Value :=
  .vmap [("on", .vstr s),
    ("jobs", .vmap [(jid, .vmap [("runs-on", .vstr r),
      ("steps", .varr (cs.map (fun c => .vmap [("run", .vstr c)])))])])]

/-- The step AST produced for a step carrying only `run`. -/
def runStep (c : String) : StepAST := { run := .vstr c }

/-- The workflow AST a minimal valid document parses to. -/
def minimalWorkflow (s jid r : String) (cs : List String)
    (fp : Option String) : WorkflowAST :=
  { onTrigger := { events := [.vstr s] },
    jobs := [(jid, { id := jid, runsOn := .vstr r, steps := cs.map runStep })],
    location := { line := 1, column := 1, file := fp } }

/-- The document of the C5 witness: several jobs, each contributing
diagnostics. -/
def c5Doc : Value :=
  .vmap [("jobs", .vmap [
    ("a", .vmap []),
    ("b", .vmap [("runs-on", .vstr "x"), ("steps", .vstr "nope")]),
    ("c", .vmap [("runs-on", .vstr ""),
      ("steps", .varr [.vmap [], .vmap [("run", .vstr "ok")], .vmap []])])])]

/-- The AST `c5Doc` parses to. -/
def c5Ast : WorkflowAST := (parse c5Doc none).ast.getD emptyWorkflow

/-- The document of the C10 witness: `on` present but `false`. -/
def c10Doc : Value := .vmap [("on", .vbool false), ("jobs", .vmap [])]

/-- The AST `c10Doc` parses to. -/
def c10Ast : WorkflowAST := (parse c10Doc none).ast.getD emptyWorkflow

/-- Single-field step of the filter loop: what one event key does to one
collected filter field. -/
def fieldUpd (onMap : List (String × Value)) (f : String)
    (acc : Option (List Value)) (ev : String) : Option (List Value) :=
  let cfg := (findEntry onMap ev).getD .vundefined
  if truthy cfg && isObjType cfg then
    if truthy (getPropD cfg f) then some (coerceToList (getPropD cfg f))
    else acc
  else acc

/-- Single-field view of the filter loop over the event keys. -/
def foldField (onMap : List (String × Value)) (f : String) :
    List String → Option (List Value) → Option (List Value)
  | [], acc => acc
  | ev :: rest, acc => foldField onMap f rest (fieldUpd onMap f acc ev)

/-- The filter field of a trigger selected by its source name. -/
def triggerFilter (t : TriggerAST) (f : String) : Option (List Value) :=
  if f == "branches" then t.branches
  else if f == "tags" then t.tags
  else t.paths

/-- The `on` mapping of the C8 witness: both events carry a `branches`
filter, only the second carries `tags`. -/
def c8OnMap : List (String × Value) :=
  [("push", .vmap [("branches", .vstr "main")]),
   ("pull_request", .vmap [("branches", .varr [.vstr "dev"]),
     ("tags", .vstr "v1")])]

/-- The trigger the C8 witness's mapping parses to. -/
def c8Trigger : TriggerAST :=
  ((parseTrigger (.vmap c8OnMap) []).toOption.map Prod.fst).getD { events := [] }

/-! ## Accumulator lemmas

Each parsing function receives the shared diagnostic list and appends to
it (the source pushes onto a shared array).  The lemmas below show that
when a function returns, the diagnostics out are the diagnostics in
followed by exactly the specification-level diagnostics of its input. -/

theorem exceptBindOk {α β ε : Type} (a : α) (f : α → Except ε β) :
    (Except.ok a >>= f) = f a := rfl

theorem exceptBindError {α β ε : Type} (e : ε) (f : α → Except ε β) :
    ((Except.error e : Except ε α) >>= f) = .error e := rfl

theorem exceptPureEq {α ε : Type} (a : α) :
    (pure a : Except ε α) = .ok a := rfl

/-- `parseTrigger` never appends a diagnostic. -/
theorem parseTrigger_errs (onConfig : Value) (errs : List ParseError)
    (t : TriggerAST) (out : List ParseError)
    (h : parseTrigger onConfig errs = .ok (t, out)) : out = errs := by
  cases onConfig <;> simp [parseTrigger] at h <;> simp [h.2.symm]

/-- The diagnostics appended by `parseStep` are `specStepDiags`. -/
theorem parseStep_errs (cfg : Value) (jobId : String) (i : Nat)
    (errs : List ParseError) (st : StepAST) (out : List ParseError)
    (h : parseStep cfg jobId i errs = .ok (st, out)) :
    out = errs ++ specStepDiags jobId i cfg := by
  cases cfg <;>
    simp only [parseStep, getField, exceptBindOk, exceptBindError,
      exceptPureEq] at h <;>
    (try exact Except.noConfusion h) <;>
    split at h <;>
    simp_all [specStepDiags, getPropD]

/-- The diagnostics appended by the step loop are `specStepsDiags`. -/
theorem parseSteps_errs (xs : List Value) (jobId : String) (i : Nat)
    (errs : List ParseError) (ss : List StepAST) (out : List ParseError)
    (h : parseSteps xs jobId i errs = .ok (ss, out)) :
    out = errs ++ specStepsDiags jobId i xs := by
  induction xs generalizing i errs ss out with
  | nil =>
      simp [parseSteps] at h
      simp [specStepsDiags, h.2.symm]
  | cons s rest ih =>
      simp only [parseSteps] at h
      cases hs : parseStep s jobId i errs with
      | error e => rw [hs] at h; simp [exceptBindError] at h
      | ok p =>
          obtain ⟨st, e₁⟩ := p
          rw [hs] at h
          simp only [exceptBindOk] at h
          cases hrest : parseSteps rest jobId (i + 1) e₁ with
          | error e => rw [hrest] at h; simp [exceptBindError] at h
          | ok q =>
              obtain ⟨ss₂, e₂⟩ := q
              rw [hrest] at h
              simp only [exceptBindOk, exceptPureEq, Except.ok.injEq,
                Prod.mk.injEq] at h
              have h₁ := parseStep_errs s jobId i errs st e₁ hs
              have h₂ := ih (i + 1) e₁ ss₂ e₂ hrest
              simp [← h.2, h₂, h₁, specStepsDiags, List.append_assoc]

/-- `finishJob` passes the diagnostic list through unchanged. -/
theorem finishJob_errs (jobId : String) (cfg runsOn : Value)
    (steps : List StepAST) (errs : List ParseError) (jb : JobAST)
    (out : List ParseError)
    (h : finishJob jobId cfg runsOn steps errs = .ok (jb, out)) : out = errs := by
  cases cfg <;>
    simp only [finishJob, getField, exceptBindOk, exceptBindError,
      exceptPureEq] at h
  case vnull => cases h
  case vundefined => cases h
  case vbool b => simp_all [truthy]
  case vnum n => simp_all [truthy]
  case vstr s => simp_all [truthy]
  case varr xs => simp_all [truthy]
  case vmap es =>
    split at h
    · cases hsv : (findEntry es "strategy").getD Value.vundefined <;>
        rw [hsv] at h <;>
        simp_all [getField, exceptBindOk, exceptBindError, exceptPureEq]
    · simp_all

/-- `specJobDiags` when the `steps` value is not an array: the `runs-on`
check followed by the `steps must be an array` check. -/
theorem specJobDiags_not_arr (jobId : String) (cfg : Value)
    (h : ∀ xs, getPropD cfg "steps" ≠ Value.varr xs) :
    specJobDiags jobId cfg =
      (if !truthy (getPropD cfg "runs-on") then [⟨jobRunsOnMsg jobId, .error⟩]
       else []) ++
      (if truthy (getPropD cfg "steps") then [⟨jobStepsArrayMsg jobId, .error⟩]
       else []) := by
  rw [specJobDiags]
  cases hs : getPropD cfg "steps" with
  | varr xs => exact absurd hs (h xs)
  | _ => rfl

/-- The diagnostics appended by `parseJob` are `specJobDiags`. -/
theorem parseJob_errs (jobId : String) (cfg : Value) (errs : List ParseError)
    (jb : JobAST) (out : List ParseError)
    (h : parseJob jobId cfg errs = .ok (jb, out)) :
    out = errs ++ specJobDiags jobId cfg := by
  cases cfg with
  | vnull => simp [parseJob, getField, exceptBindError] at h
  | vundefined => simp [parseJob, getField, exceptBindError] at h
  | vbool b =>
      simp only [parseJob, getField, exceptBindOk, exceptPureEq, truthy] at h
      have := finishJob_errs _ _ _ _ _ _ _ h
      simp [this, specJobDiags, specStepsDiags, getPropD, truthy]
  | vnum n =>
      simp only [parseJob, getField, exceptBindOk, exceptPureEq, truthy] at h
      have := finishJob_errs _ _ _ _ _ _ _ h
      simp [this, specJobDiags, specStepsDiags, getPropD, truthy]
  | vstr s =>
      simp only [parseJob, getField, exceptBindOk, exceptPureEq, truthy] at h
      have := finishJob_errs _ _ _ _ _ _ _ h
      simp [this, specJobDiags, specStepsDiags, getPropD, truthy]
  | varr xs =>
      simp only [parseJob, getField, exceptBindOk, exceptPureEq, truthy] at h
      have := finishJob_errs _ _ _ _ _ _ _ h
      simp [this, specJobDiags, specStepsDiags, getPropD, truthy]
  | vmap es =>
      simp only [parseJob, getField, exceptBindOk] at h
      split at h
      · rename_i v xs hst
        cases hps : parseSteps xs jobId 0
            (if (!truthy ((findEntry es "runs-on").getD Value.vundefined)) = true
             then errs ++ [⟨jobRunsOnMsg jobId, .error⟩] else errs) with
        | error e => rw [hps] at h; simp [exceptBindError] at h
        | ok p =>
            obtain ⟨ss, e₁⟩ := p
            rw [hps] at h
            simp only [exceptBindOk] at h
            have h₁ := parseSteps_errs _ _ _ _ _ _ hps
            have h₂ := finishJob_errs _ _ _ _ _ _ _ h
            simp [h₂, h₁, specJobDiags, getPropD, hst]
            split <;> simp
      · rename_i v hnarr
        have hspec := specJobDiags_not_arr jobId (Value.vmap es)
          (fun xs hh => hnarr xs hh)
        split at h <;>
          · rename_i htr
            simp only [exceptPureEq, exceptBindOk] at h
            have h₂ := finishJob_errs _ _ _ _ _ _ _ h
            rw [h₂, hspec]
            simp only [getPropD, htr]
            simp
            split <;> simp

/-- The diagnostics appended by the jobs loop are `specJobsDiags`. -/
theorem parseJobs_errs (entries : List (String × Value))
    (errs : List ParseError) (js : List (String × JobAST))
    (out : List ParseError)
    (h : parseJobs entries errs = .ok (js, out)) :
    out = errs ++ specJobsDiags entries := by
  induction entries generalizing errs js out with
  | nil =>
      simp [parseJobs] at h
      simp [specJobsDiags, h.2.symm]
  | cons entry rest ih =>
      obtain ⟨jobId, cfg⟩ := entry
      simp only [parseJobs] at h
      cases hj : parseJob jobId cfg errs with
      | error e => rw [hj] at h; simp [exceptBindError] at h
      | ok p =>
          obtain ⟨jb, e₁⟩ := p
          rw [hj] at h
          simp only [exceptBindOk] at h
          cases hrest : parseJobs rest e₁ with
          | error e => rw [hrest] at h; simp [exceptBindError] at h
          | ok q =>
              obtain ⟨js₂, e₂⟩ := q
              rw [hrest] at h
              simp only [exceptBindOk, exceptPureEq, Except.ok.injEq,
                Prod.mk.injEq] at h
              have h₁ := parseJob_errs _ _ _ _ _ hj
              have h₂ := ih e₁ js₂ e₂ hrest
              simp [← h.2, h₂, h₁, specJobsDiags, List.append_assoc]

/-- Inversion for a successful `Except` bind. -/
theorem exceptBindOkInv {α β ε : Type} {x : Except ε α} {f : α → Except ε β}
    {b : β} (h : (x >>= f) = .ok b) : ∃ a, x = .ok a ∧ f a = .ok b := by
  cases x with
  | ok a => exact ⟨a, rfl, h⟩
  | error e => simp [exceptBindError] at h

/-- The diagnostics accumulated by a completing builder run on a decoded
mapping are exactly `specDiags`: the top-level `on` check, the top-level
`jobs` check, then the per-job diagnostics in job order. -/
theorem buildWorkflowAST_errs (es : List (String × Value))
    (fp : Option String) (w : WorkflowAST) (out : List ParseError)
    (h : buildWorkflowAST (.vmap es) fp [] = .ok (w, out)) :
    out = specDiags (.vmap es) := by
  simp only [buildWorkflowAST, getField, exceptBindOk] at h
  obtain ⟨⟨t, e₁⟩, htr, h⟩ := exceptBindOkInv h
  have he₁ := parseTrigger_errs _ _ _ _ htr
  split at h
  · rename_i hguard
    obtain ⟨⟨js, e₂⟩, hpj, h⟩ := exceptBindOkInv h
    have he₂ := parseJobs_errs _ _ _ _ hpj
    simp only [exceptPureEq, Except.ok.injEq, Prod.mk.injEq] at h
    simp only [specDiags, getPropD]
    simp_all
  · rename_i hguard
    simp only [exceptPureEq, exceptBindOk, Except.ok.injEq, Prod.mk.injEq] at h
    simp only [specDiags, getPropD]
    simp_all
    split <;> simp_all

/-! ## Claim theorems -/

/-- Claim C1, counterexample to the claim as stated: at the scalar
top-level input `"x"` the single error diagnostic reads
`Invalid YAML: expected object`, not `Invalid input: expected object`;
and at the top-level sequence `[]` parse does not return a null AST at
all (a JavaScript array satisfies `typeof x === 'object'` and passes the
guard). -/
theorem C1_counterexample :
    ((parse (.vstr "x") none).errors.map (fun e => e.message)
        ≠ ["Invalid input: expected object"])
    ∧ (parse (.varr []) none).ast.isSome = true := by
  exact ⟨by decide, rfl⟩

/-- Claim C1, amended: for every decoded top-level value that is
`undefined`, `null`, a boolean, a number or a string (scalars and null,
but not sequences), parse returns a null AST together with exactly one
error diagnostic whose message is `Invalid YAML: expected object`, and
performs no further construction work. -/
theorem C1_invalid_top_level (v : Value) (fp : Option String)
    (h : v = .vundefined ∨ v = .vnull ∨ (∃ b, v = .vbool b) ∨
      (∃ n, v = .vnum n) ∨ (∃ s, v = .vstr s)) :
    parse v fp =
      { ast := none, errors := [⟨"Invalid YAML: expected object", .error⟩] } := by
  rcases h with rfl | rfl | ⟨b, rfl⟩ | ⟨n, rfl⟩ | ⟨s, rfl⟩ <;>
    simp [parse, truthy, isObjType]

/-- Claim C1, witness: the amended statement at the scalar input `"x"`. -/
theorem C1_witness :
    parse (.vstr "x") none =
      { ast := none, errors := [⟨"Invalid YAML: expected object", .error⟩] } :=
  C1_invalid_top_level (.vstr "x") none
    (Or.inr (Or.inr (Or.inr (Or.inr ⟨"x", rfl⟩))))

/-- Claim C2: the decodable document with a null job configuration
(`jobs: {test: null}`) makes the AST builder throw (reading `runs-on` of
`null` raises a `TypeError`), contradicting the claim that the builder is
total; the blanket catch in `parse` then reports it as a decode-style
`YAML parse error` diagnostic with a null AST instead of an ordinary
validation diagnostic. -/
theorem C2_builder_throws :
    (buildWorkflowAST
        (.vmap [("on", .vstr "push"), ("jobs", .vmap [("test", .vnull)])])
        none []).isOk = false
    ∧ (parse (.vmap [("on", .vstr "push"), ("jobs", .vmap [("test", .vnull)])])
        none).ast.isNone = true
    ∧ (parse (.vmap [("on", .vstr "push"), ("jobs", .vmap [("test", .vnull)])])
        none).errors.map (fun e => e.message)
      = ["YAML parse error: Cannot read properties of null (reading 'runs-on')"] := by
  exact ⟨rfl, rfl, rfl⟩

/-- Claim C6: the three trigger spellings are equivalent — for any event
name `e`, a bare string `e`, the one-element list `[e]` and the mapping
`{e: {}}` all produce a trigger whose event list is exactly `[e]`. -/
theorem C6_trigger_spellings (e : String) :
    ((parseTrigger (.vstr e) []).toOption.map (fun p => p.1.events)
        = some [.vstr e])
    ∧ ((parseTrigger (.varr [.vstr e]) []).toOption.map (fun p => p.1.events)
        = some [.vstr e])
    ∧ ((parseTrigger (.vmap [(e, .vmap [])]) []).toOption.map
        (fun p => p.1.events) = some [.vstr e]) := by
  refine ⟨rfl, rfl, ?_⟩
  simp [parseTrigger, extractFilters, findEntry, getPropD, truthy, isObjType,
    Except.toOption]

/-- Claim C7: for a number or boolean `on` value `parseTrigger` does
yield an empty event list with no diagnostic, but for a null `on` value
(`typeof null === 'object'`) it reaches `Object.keys(null)` and throws,
so the builder does not return the workflow AST there: `parse` on a
document with `on: null` and an otherwise valid job yields a null AST
and one caught-error diagnostic, contradicting the claim. -/
theorem C7_null_on_throws :
    (parseTrigger .vnull []).isOk = false
    ∧ (parse (.vmap [("on", .vnull),
        ("jobs", .vmap [("test", .vmap [("runs-on", .vstr "ubuntu-latest"),
          ("steps", .varr [.vmap [("run", .vstr "echo test")]])])])])
        none).ast.isNone = true
    ∧ (parse (.vmap [("on", .vnull),
        ("jobs", .vmap [("test", .vmap [("runs-on", .vstr "ubuntu-latest"),
          ("steps", .varr [.vmap [("run", .vstr "echo test")]])])])])
        none).errors.map (fun e => e.message)
      = ["YAML parse error: Cannot convert undefined or null to object"]
    ∧ ((parseTrigger (.vnum 5) []).toOption.map (fun p => (p.1.events, p.2))
        = some ([], []))
    ∧ ((parseTrigger (.vbool true) []).toOption.map (fun p => (p.1.events, p.2))
        = some ([], [])) := by
  exact ⟨rfl, rfl, rfl, rfl, rfl⟩

/-- Claim C3: the strict entry point distinguishes the two failure
modes — a null AST throws with all collected diagnostic messages joined
by newlines; a non-null AST with at least one error-severity diagnostic
throws with the join of only the error-severity messages; otherwise
(in particular when every diagnostic is a warning) the AST is returned
directly.  `parseWorkflow` is the composition of this result handling
with `parse`. -/
theorem C3_strict_entry (r : ParseResult) :
    (r.ast = none →
      strictFromResult r =
        .error ("Failed to parse workflow:\n" ++ joinMessages r.errors))
    ∧ (∀ a, r.ast = some a →
        ((∃ d ∈ r.errors, d.severity = .error) →
          strictFromResult r =
            .error ("Workflow has critical errors:\n" ++
              joinMessages (r.errors.filter (fun e => e.severity == .error))))
        ∧ ((∀ d ∈ r.errors, d.severity ≠ .error) →
          strictFromResult r = .ok a))
    ∧ (∀ v fp, parseWorkflow v fp = strictFromResult (parse v fp)) := by
  refine ⟨fun h => by simp [strictFromResult, h], fun a ha => ⟨?_, ?_⟩,
    fun v fp => rfl⟩
  · rintro ⟨d, hd, hsev⟩
    have hlen : 0 < r.errors.length := List.length_pos.mpr (List.ne_nil_of_mem hd)
    have hmem : d ∈ r.errors.filter (fun e => e.severity == .error) :=
      List.mem_filter.mpr ⟨hd, by rw [hsev]; rfl⟩
    have hflen : 0 < (r.errors.filter (fun e => e.severity == .error)).length :=
      List.length_pos.mpr (List.ne_nil_of_mem hmem)
    simp [strictFromResult, ha, hlen, hflen]
  · intro hall
    by_cases hlen : 0 < r.errors.length
    · have hfilter : r.errors.filter (fun e => e.severity == .error) = [] := by
        rw [List.filter_eq_nil_iff]
        intro d hd
        cases hsv : d.severity with
        | error => exact absurd hsv (hall d hd)
        | warning => decide
      simp [strictFromResult, ha, hlen, hfilter]
    · simp [strictFromResult, ha, hlen]

/-- Claim C3, witness: a result carrying an AST and one
warning-severity diagnostic is returned directly (the warning neither
blocks success nor appears in any failure message). -/
theorem C3_witness :
    strictFromResult
      { ast := some emptyWorkflow, errors := [⟨"soft finding", .warning⟩] }
      = .ok emptyWorkflow :=
  ((C3_strict_entry _).2.1 emptyWorkflow rfl).2 (by decide)

/-- The step loop on run-only steps with nonempty commands: no
diagnostics, one `runStep` per command. -/
theorem parseSteps_runSteps (jid : String) (cs : List String) (i : Nat)
    (errs : List ParseError) (hall : ∀ c ∈ cs, c ≠ "") :
    parseSteps (cs.map (fun c => .vmap [("run", .vstr c)])) jid i errs
      = .ok (cs.map runStep, errs) := by
  induction cs generalizing i with
  | nil => simp [parseSteps]
  | cons c rest ih =>
      have hc : c ≠ "" := hall c (List.mem_cons_self c rest)
      have hrest : ∀ x ∈ rest, x ≠ "" := fun x hx => hall x (List.mem_cons_of_mem c hx)
      simp only [List.map_cons, parseSteps, parseStep, getField, findEntry,
        exceptBindOk, exceptPureEq]
      simp [truthy, hc, ih (i + 1) hrest, runStep, exceptBindOk, exceptPureEq]

/-- Claim C4: every minimal valid document — a nonempty string trigger
plus one job with a nonempty string runner and at least one step whose
`run` command is nonempty — parses to a non-null AST with an empty
diagnostic list, the trigger events being the singleton of the trigger
string, the job keeping its identifier and runner, and the steps keeping
their `run` commands in order. -/
theorem C4_minimal_valid (s jid r : String) (cs : List String)
    (fp : Option String) (hs : s ≠ "") (hr : r ≠ "") (_hcs : cs ≠ [])
    (hall : ∀ c ∈ cs, c ≠ "") :
    parse (minimalDoc s jid r cs) fp =
      { ast := some (minimalWorkflow s jid r cs fp), errors := [] } := by
  simp only [minimalDoc, parse, truthy, isObjType, Bool.not_true,
    Bool.or_self, Bool.false_or, if_false, ite_false, ite_true]
  simp only [buildWorkflowAST, getField, findEntry, exceptBindOk, exceptPureEq]
  simp only [parseTrigger, parseJobs, parseJob, finishJob, entriesOf,
    getField, findEntry, exceptBindOk, exceptPureEq, truthy, isObjType]
  simp [hs, hr, parseSteps_runSteps jid cs 0 _ hall, minimalWorkflow,
    exceptBindOk, exceptPureEq, truthy]

/-- Claim C4, witness: the document `on: push` with one job `test` on
`ubuntu-latest` and one step `run: echo test` parses to events
`["push"]`, runner `"ubuntu-latest"`, one step with run `"echo test"`
and zero diagnostics. -/
theorem C4_witness :
    parse (minimalDoc "push" "test" "ubuntu-latest" ["echo test"]) none =
      { ast := some (minimalWorkflow "push" "test" "ubuntu-latest"
          ["echo test"] none), errors := [] } :=
  C4_minimal_valid "push" "test" "ubuntu-latest" ["echo test"] none
    (by decide) (by decide) (by decide) (by decide)

/-- Claim C5, counterexample to the claim as stated: on the decodable
mapping `{jobs: {a: null}}` the top-level `on` check fires first, but
the null job configuration then makes the builder throw, and the catch
in `parse` replaces everything collected so far with a single
caught-error diagnostic: the returned list neither starts with nor even
contains the `on` diagnostic. -/
theorem C5_counterexample :
    ((parse (.vmap [("jobs", .vmap [("a", .vnull)])]) none).errors.map
        (fun e => e.message)
      = ["YAML parse error: Cannot read properties of null (reading 'runs-on')"])
    ∧ missingOnMsg ∉
        ((parse (.vmap [("jobs", .vmap [("a", .vnull)])]) none).errors.map
          (fun e => e.message)) := by
  exact ⟨rfl, by decide⟩

/-- Claim C5, amended: for every decodable mapping input on which the
builder completes without throwing (equivalently, parse returns a
non-null AST), the returned diagnostics are exactly `specDiags`: the
top-level `on` check first, then the top-level `jobs` check, then the
per-job diagnostics in the jobs mapping's iteration order, where within
each job the `runs-on` diagnostic precedes the step diagnostics and the
step diagnostics follow step index order; none is dropped.  When the
builder throws, the diagnostics collected so far are replaced by the
single caught-error diagnostic. -/
theorem C5_diag_order (es : List (String × Value)) (fp : Option String)
    (w : WorkflowAST) (errs : List ParseError)
    (h : parse (.vmap es) fp = { ast := some w, errors := errs }) :
    errs = specDiags (.vmap es) := by
  simp only [parse, truthy, isObjType, Bool.not_true, Bool.and_self,
    Bool.or_self, Bool.false_or, if_false, ite_false, ite_true] at h
  cases hb : buildWorkflowAST (.vmap es) fp [] with
  | error e => rw [hb] at h; simp at h
  | ok p =>
      obtain ⟨w₂, out⟩ := p
      rw [hb] at h
      simp at h
      rw [← h.2]
      exact buildWorkflowAST_errs es fp w₂ out hb

/-- Claim C5, witness: on a document whose jobs produce a missing
`runs-on` diagnostic, a `steps must be an array` diagnostic, and two
per-step diagnostics after a falsy `runs-on`, the returned diagnostics
are exactly the specification-level list. -/
theorem C5_witness :
    (parse c5Doc none).errors = specDiags c5Doc :=
  C5_diag_order _ none c5Ast ((parse c5Doc none).errors) (by rfl)

/-- Claim C9, counterexample to the claim as stated: a `jobs` value that
is a sequence satisfies `typeof x === 'object'` and passes the check —
`{on: push, jobs: []}` yields no diagnostic at all, and
`{on: push, jobs: ["x"]}` even turns the array element into a job keyed
by its stringified index `"0"`. -/
theorem C9_counterexample :
    ((parse (.vmap [("on", .vstr "push"), ("jobs", .varr [])]) none).errors = [])
    ∧ ((parse (.vmap [("on", .vstr "push"), ("jobs", .varr [.vstr "x"])])
        none).errors.map (fun e => e.message) = [jobRunsOnMsg "0"])
    ∧ ((parse (.vmap [("on", .vstr "push"), ("jobs", .varr [.vstr "x"])])
        none).ast.map (fun w => w.jobs.map Prod.fst) = some ["0"]) := by
  exact ⟨rfl, rfl, rfl⟩

/-- Claim C9, amended: for every decodable mapping input whose `jobs`
value is missing, falsy, or of non-object type (a scalar — but not a
sequence, which passes the object check), and whose `on` value is not
null (so the builder completes), the builder emits exactly one error
diagnostic with message `Missing or invalid 'jobs' field` and proceeds
to return a workflow whose jobs mapping is empty. -/
theorem C9_invalid_jobs (es : List (String × Value)) (fp : Option String)
    (hjobs : truthy (getPropD (.vmap es) "jobs") = false ∨
      isObjType (getPropD (.vmap es) "jobs") = false)
    (hon : getPropD (.vmap es) "on" ≠ .vnull) :
    ((parse (.vmap es) fp).ast.map (fun w => w.jobs) = some [])
    ∧ (((parse (.vmap es) fp).errors.map (fun e => e.message)).count
        invalidJobsMsg = 1)
    ∧ (((parse (.vmap es) fp).errors.filter
        (fun e => e.severity == Severity.error)) = (parse (.vmap es) fp).errors) := by
  simp only [getPropD] at hjobs hon
  have hguard : (truthy ((findEntry es "jobs").getD Value.vundefined) &&
      isObjType ((findEntry es "jobs").getD Value.vundefined)) = false := by
    rcases hjobs with h | h <;> simp [h]
  have hcond : (!truthy ((findEntry es "jobs").getD Value.vundefined) ||
      !isObjType ((findEntry es "jobs").getD Value.vundefined)) = true := by
    rcases hjobs with h | h <;> simp [h]
  simp only [parse, truthy, isObjType, Bool.not_true, Bool.or_self,
    if_false, ite_false, ite_true]
  cases hov : (findEntry es "on").getD Value.vundefined
  case vnull => exact absurd hov hon
  all_goals
    simp only [buildWorkflowAST, getField, exceptBindOk, exceptPureEq, hov,
      hguard, hcond, parseTrigger, if_true, if_false, ite_true, ite_false,
      Bool.false_eq_true, exceptBindError]
  all_goals
    refine ⟨by simp, ?_, ?_⟩ <;>
      first
        | decide
        | (split <;> decide)

/-- Claim C9, witness: the amended statement at the document
`{on: push, jobs: "bad"}` — a scalar `jobs` value.  The AST is present
with an empty jobs mapping, and exactly one diagnostic carries the
`Missing or invalid 'jobs' field` message, all diagnostics having error
severity. -/
theorem C9_witness :
    ((parse (.vmap [("on", .vstr "push"), ("jobs", .vstr "bad")]) none).ast.map
        (fun w => w.jobs) = some [])
    ∧ (((parse (.vmap [("on", .vstr "push"), ("jobs", .vstr "bad")])
        none).errors.map (fun e => e.message)).count invalidJobsMsg = 1)
    ∧ (((parse (.vmap [("on", .vstr "push"), ("jobs", .vstr "bad")])
        none).errors.filter (fun e => e.severity == Severity.error))
      = (parse (.vmap [("on", .vstr "push"), ("jobs", .vstr "bad")])
          none).errors) :=
  C9_invalid_jobs [("on", .vstr "push"), ("jobs", .vstr "bad")] none
    (Or.inr (by decide)) (by simp [getPropD, findEntry])

/-- Claim C10: for every decodable mapping input in which the `on` key
is present but its value is falsy (`false`, `0`, or the empty string),
the builder still emits the error diagnostic
`Missing required field 'on' (trigger configuration)` — first in the
returned list — even though the key exists in the source (the check is
`!raw.on`, a truthiness test, not a presence test). -/
theorem C10_falsy_on (es : List (String × Value)) (fp : Option String)
    (v : Value) (hfind : findEntry es "on" = some v)
    (hv : v = .vbool false ∨ v = .vnum 0 ∨ v = .vstr "")
    (w : WorkflowAST) (errs : List ParseError)
    (h : parse (.vmap es) fp = { ast := some w, errors := errs }) :
    errs.head? = some ⟨missingOnMsg, .error⟩ := by
  simp only [parse, truthy, isObjType, Bool.not_true, Bool.and_self,
    Bool.or_self, Bool.false_or, if_false, ite_false, ite_true] at h
  cases hb : buildWorkflowAST (.vmap es) fp [] with
  | error e => rw [hb] at h; simp at h
  | ok p =>
      obtain ⟨w₂, out⟩ := p
      rw [hb] at h
      simp at h
      rw [← h.2, buildWorkflowAST_errs es fp w₂ out hb]
      rcases hv with rfl | rfl | rfl <;>
        simp [specDiags, getPropD, hfind, truthy]

/-- Claim C10, witness: with `on: false` the first returned diagnostic
is the missing-`on` error. -/
theorem C10_witness :
    (parse c10Doc none).errors.head? = some ⟨missingOnMsg, .error⟩ :=
  C10_falsy_on [("on", .vbool false), ("jobs", .vmap [])] none (.vbool false)
    rfl (Or.inl rfl) c10Ast ((parse c10Doc none).errors) (by rfl)

/-- Each component of the three-field filter loop is its own single-field
fold: the three filter fields are collected independently. -/
theorem extractFilters_proj (onMap : List (String × Value)) (ks : List String)
    (b t p : Option (List Value)) :
    (extractFilters onMap ks (b, t, p)).1 = foldField onMap "branches" ks b
    ∧ (extractFilters onMap ks (b, t, p)).2.1 = foldField onMap "tags" ks t
    ∧ (extractFilters onMap ks (b, t, p)).2.2 = foldField onMap "paths" ks p := by
  induction ks generalizing b t p with
  | nil => exact ⟨rfl, rfl, rfl⟩
  | cons ev rest ih =>
      simp only [extractFilters, foldField, fieldUpd]
      split
      · exact ih _ _ _
      · exact ih _ _ _

/-- The single-field fold over concatenated key lists. -/
theorem foldField_append (onMap : List (String × Value)) (f : String)
    (ks₁ ks₂ : List String) (acc : Option (List Value)) :
    foldField onMap f (ks₁ ++ ks₂) acc
      = foldField onMap f ks₂ (foldField onMap f ks₁ acc) := by
  induction ks₁ generalizing acc with
  | nil => rfl
  | cons ev rest ih =>
      simp only [List.cons_append, foldField]
      exact ih _

/-- Keys that do not (truthily) specify the field leave the collected
value in place. -/
theorem foldField_no_spec (onMap : List (String × Value)) (f : String)
    (ks : List String) (acc : Option (List Value))
    (hns : ∀ ev ∈ ks,
      (truthy ((findEntry onMap ev).getD .vundefined) &&
        isObjType ((findEntry onMap ev).getD .vundefined) &&
        truthy (getPropD ((findEntry onMap ev).getD .vundefined) f)) = false) :
    foldField onMap f ks acc = acc := by
  induction ks generalizing acc with
  | nil => rfl
  | cons ev rest ih =>
      have hev := hns ev (List.mem_cons_self ev rest)
      have hrest : ∀ x ∈ rest, _ := fun x hx => hns x (List.mem_cons_of_mem ev hx)
      simp only [foldField]
      rw [ih _ hrest]
      simp only [fieldUpd]
      split
      · rename_i hguard
        split
        · rename_i hval
          rw [hguard] at hev
          simp [hval] at hev
        · rfl
      · rfl

/-- Lookup in an association list with distinct keys finds each entry's
own value. -/
theorem findEntry_nodup (es : List (String × Value))
    (hnd : (es.map Prod.fst).Nodup) (k : String) (v : Value)
    (hm : (k, v) ∈ es) : findEntry es k = some v := by
  induction es with
  | nil => cases hm
  | cons hd rest ih =>
      obtain ⟨k₂, v₂⟩ := hd
      simp only [List.map_cons, List.nodup_cons] at hnd
      rcases List.mem_cons.mp hm with heq | hmem
      · obtain ⟨rfl, rfl⟩ := Prod.mk.injEq .. ▸ heq
        simp [findEntry]
      · by_cases hk : k₂ = k
        · subst hk
          exact absurd (List.mem_map.mpr ⟨(k₂, v), hmem, rfl⟩) hnd.1
        · simp only [findEntry, beq_iff_eq, if_neg hk]
          exact ih hnd.2 hmem

/-- Claim C8: when the `on` value is a mapping, the trigger's filter
fields are collected independently, and for each of `branches`, `tags`
and `paths` the value kept is the one from the last event in iteration
order whose configuration is a truthy object carrying a truthy value for
that field (coerced to a list); events after it that do not carry the
field leave the collected value in place. -/
theorem C8_last_filter_wins (l₁ l₂ : List (String × Value)) (e f : String)
    (cfg : Value)
    (hf : f = "branches" ∨ f = "tags" ∨ f = "paths")
    (hnd : ((l₁ ++ (e, cfg) :: l₂).map Prod.fst).Nodup)
    (hobj : (truthy cfg && isObjType cfg) = true)
    (hval : truthy (getPropD cfg f) = true)
    (hlast : ∀ p ∈ l₂,
      (truthy p.2 && isObjType p.2 && truthy (getPropD p.2 f)) = false)
    (t : TriggerAST) (out : List ParseError)
    (h : parseTrigger (.vmap (l₁ ++ (e, cfg) :: l₂)) [] = .ok (t, out)) :
    triggerFilter t f = some (coerceToList (getPropD cfg f)) := by
  have hmem : (e, cfg) ∈ l₁ ++ (e, cfg) :: l₂ :=
    List.mem_append.mpr (Or.inr (List.mem_cons_self _ _))
  have hfind : findEntry (l₁ ++ (e, cfg) :: l₂) e = some cfg :=
    findEntry_nodup _ hnd e cfg hmem
  rcases hXeq : extractFilters (l₁ ++ (e, cfg) :: l₂)
      ((l₁ ++ (e, cfg) :: l₂).map Prod.fst) (none, none, none) with ⟨Xb, Xt, Xp⟩
  simp only [parseTrigger] at h
  rw [hXeq] at h
  simp only [Except.ok.injEq, Prod.mk.injEq] at h
  have hproj := extractFilters_proj (l₁ ++ (e, cfg) :: l₂)
      ((l₁ ++ (e, cfg) :: l₂).map Prod.fst) none none none
  rw [hXeq] at hproj
  have hkeys : ((l₁ ++ (e, cfg) :: l₂).map Prod.fst)
      = l₁.map Prod.fst ++ e :: l₂.map Prod.fst := by simp
  have hno : ∀ ev ∈ l₂.map Prod.fst,
      (truthy ((findEntry (l₁ ++ (e, cfg) :: l₂) ev).getD .vundefined) &&
        isObjType ((findEntry (l₁ ++ (e, cfg) :: l₂) ev).getD .vundefined) &&
        truthy (getPropD ((findEntry (l₁ ++ (e, cfg) :: l₂) ev).getD .vundefined) f))
        = false := by
    intro ev hev
    obtain ⟨q, hq, rfl⟩ := List.mem_map.mp hev
    have hfq : findEntry (l₁ ++ (e, cfg) :: l₂) q.1 = some q.2 :=
      findEntry_nodup _ hnd q.1 q.2
        (List.mem_append.mpr (Or.inr (List.mem_cons_of_mem _ hq)))
    rw [hfq]
    exact hlast q hq
  have hfold : foldField (l₁ ++ (e, cfg) :: l₂) f
      ((l₁ ++ (e, cfg) :: l₂).map Prod.fst) none
      = some (coerceToList (getPropD cfg f)) := by
    rw [hkeys, foldField_append]
    simp only [foldField]
    rw [foldField_no_spec _ _ _ _ hno]
    simp only [fieldUpd, hfind, Option.getD_some]
    simp [hobj, hval]
  rcases hf with rfl | rfl | rfl
  · rw [← h.1]
    exact hproj.1.trans hfold
  · rw [← h.1]
    exact hproj.2.1.trans hfold
  · rw [← h.1]
    exact hproj.2.2.trans hfold

/-- Claim C8, witness: with `push: {branches: main}` followed by
`pull_request: {branches: [dev], tags: v1}`, the kept `branches` filter
is the second event's (`["dev"]`, overriding the first), and the kept
`tags` filter is the second event's scalar coerced to a list. -/
theorem C8_witness :
    triggerFilter c8Trigger "branches" = some [.vstr "dev"]
    ∧ triggerFilter c8Trigger "tags" = some [.vstr "v1"] :=
  ⟨C8_last_filter_wins [("push", .vmap [("branches", .vstr "main")])] []
      "pull_request" "branches"
      (.vmap [("branches", .varr [.vstr "dev"]), ("tags", .vstr "v1")])
      (Or.inl rfl) (by decide) (by decide) (by decide)
      (by simp) c8Trigger [] (by rfl),
    C8_last_filter_wins [("push", .vmap [("branches", .vstr "main")])] []
      "pull_request" "tags"
      (.vmap [("branches", .varr [.vstr "dev"]), ("tags", .vstr "v1")])
      (Or.inr (Or.inl rfl)) (by decide) (by decide) (by decide)
      (by simp) c8Trigger [] (by rfl)⟩
